import Mathlib

/-!
Shallow embedding of `src/addrandomid/addrandomid.py` (class `AddRandomIdCommand`)
and proofs of the specification claims about it.

The Python program walks a directory tree, collects files whose name ends with a
configured extension, parses each file as HTML, and assigns a generated `id`
attribute to eligible element nodes.  The embedding below mirrors, definition by
definition, the methods `_is_valid_tag`, `_new_id`, `_include_id`,
`_is_valid_extension` and `_find_file_names`, plus the per-file loop of
`execute`.  External collaborators (the BeautifulSoup parser and the
`uuid.uuid4` generator) are modelled as follows: the parser is abstracted by
working directly on the parsed tree (`Node`), and the UUID generator is a
stream `uuids : Nat → String` whose values the theorems may assume to be
36-character strings, which is the shape of `str(uuid.uuid4())`.
-/

namespace AddRandomId

/-- Model of the Python string method `lower`, mapping the lower-casing of
characters over the string. -/
def lowerStr (s : String) : String := ⟨s.data.map Char.toLower⟩

/-- Model of the Python string method `endswith`: suffix match on the
character sequence. -/
def endsWithStr (s suffix : String) : Bool := suffix.data.isSuffixOf s.data

/-- Attribute mapping of an element: attribute name to attribute value, in
insertion order, as BeautifulSoup keeps it. -/
abbrev Attrs := List (String × String)

/-- Lookup of an attribute value, as `tag.get(key)`: `none` when absent. -/
def getAttr : Attrs → String → Option String
  | [], _ => none
  | (k, v) :: rest, key => if k = key then some v else getAttr rest key

/-- Assignment `tag[key] = val`: replaces the value in place when the key is
present, otherwise appends the new attribute at the end. -/
def setAttr : Attrs → String → String → Attrs
  | [], key, val => [(key, val)]
  | (k, v) :: rest, key, val =>
    if k = key then (key, val) :: rest else (k, v) :: setAttr rest key val

/-- Python truthiness of `tag.get(key)`: `None` and the empty string are
falsy, every non-empty string is truthy. -/
def truthy : Option String → Bool
  | none => false
  | some s => !(s = "")

/-- A node of the parsed document tree: an element node (a `bs4.element.Tag`,
with tag name, attributes and children) or a non-element node (text, comment,
and so on, which the transform skips). -/
inductive Node where
  | elem (name : String) (attrs : Attrs) (children : List Node)
  | text (s : String)

/-- The resolved configuration of `AddRandomIdCommand.__init__`.  The field
`pre` models the Python attribute `prefix` (a reserved word in Lean). -/
structure Config where
  path : String
  recursive : Bool
  exclude_tags : List String
  include_tags : List String
  encoding : String
  extensions : List String
  pre : String
  suffix : String

/-- The class defaults `__PATH`, `__RECURSIVE`, `__EXCLUDE_TAGS`,
`__INCLUDE_TAGS`, `__ENCODING`, `__EXTENSIONS`, `__PREFIX`, `__SUFFIX`. -/
def defaultConfig : Config :=
  { path := "."
    recursive := false
    exclude_tags := ["script", "head", "title", "html", "br", "style"]
    include_tags := ["*"]
    encoding := "utf-8"
    extensions := ["html", "hml", "xhtml"]
    pre := ""
    suffix := "" }

/-- The class constant `__INCLUDE_TAGS = ['*']` that `_is_valid_tag` compares
`self.include_tags` against. -/
def sentinelIncludeTags : List String := ["*"]

/-- Embedding of `_is_valid_tag` restricted to element nodes: the
`isinstance(tag, Tag)` test is performed by the caller (`includeIdNode` only
applies this to `Node.elem`).  Mirrors
`tag.name.lower() not in self.exclude_tags and
 (self.include_tags == self.__INCLUDE_TAGS or tag.name.lower() in self.include_tags)`.
Note that only the tag name is lower-cased; the configured lists are used
verbatim. -/
def is_valid_tag (cfg : Config) (name : String) : Bool :=
  !(cfg.exclude_tags.contains (lowerStr name)) &&
    (cfg.include_tags == sentinelIncludeTags || cfg.include_tags.contains (lowerStr name))

/-- Embedding of `_new_id`: `self.prefix + str(uuid.uuid4()) + self.suffix`,
with the generated UUID string passed in as `u`. -/
def new_id (cfg : Config) (u : String) : String :=
  cfg.pre ++ u ++ cfg.suffix

mutual

/-- One step of the `_include_id` traversal on a single node.  The Python loop
visits `soup.descendants` in pre-order and, for each element that passes
`_is_valid_tag` and has no truthy `id`, sets `tag['id'] = self._new_id(...)`.
The UUID stream index `k` counts how many UUIDs were consumed so far, so the
node itself is processed before its children, and siblings left to right. -/
def includeIdNode (cfg : Config) (uuids : Nat → String) : Node → Nat → Node × Nat
  | .text s, k => (.text s, k)
  | .elem name attrs children, k =>
    if is_valid_tag cfg name && !(truthy (getAttr attrs "id")) then
      let res := includeIdList cfg uuids children (k + 1)
      (.elem name (setAttr attrs "id" (new_id cfg (uuids k))) res.1, res.2)
    else
      let res := includeIdList cfg uuids children k
      (.elem name attrs res.1, res.2)

/-- The `_include_id` traversal over a list of sibling nodes, threading the
UUID stream index left to right. -/
def includeIdList (cfg : Config) (uuids : Nat → String) : List Node → Nat → List Node × Nat
  | [], k => ([], k)
  | c :: cs, k =>
    let r1 := includeIdNode cfg uuids c k
    let r2 := includeIdList cfg uuids cs r1.2
    (r1.1 :: r2.1, r2.2)

end

/-- Embedding of `_include_id` on a parsed document.  A document is the list of
top-level nodes of the parse tree (the BeautifulSoup root object itself is not
an element and is not visited by `soup.descendants`). -/
def include_id (cfg : Config) (uuids : Nat → String) (doc : List Node) : List Node :=
  (includeIdList cfg uuids doc 0).1

/-- Path lookup inside a tree: `Node.get p t` follows child indices `p`
starting at `t` (`[]` is `t` itself). -/
def Node.get : List Nat → Node → Option Node
  | [], t => some t
  | i :: p, .elem _ _ cs => (cs[i]?).bind (Node.get p)
  | _ :: _, .text _ => none

/-- Path lookup inside a document: the head index selects a top-level node,
the rest of the path descends inside it. -/
def docGet (doc : List Node) : List Nat → Option Node
  | [] => none
  | i :: p => (doc[i]?).bind (Node.get p)

/-- The effect of one `_include_id` visit on the attributes of one element:
when the element is eligible (valid tag, no truthy `id`) the `id` attribute is
set to the generated identifier built from the UUID `u`, otherwise the
attributes are untouched. -/
def attrsAfter (cfg : Config) (u : String) (name : String) (attrs : Attrs) : Attrs :=
  if is_valid_tag cfg name && !(truthy (getAttr attrs "id")) then
    setAttr attrs "id" (new_id cfg u)
  else attrs

/-- Embedding of `_is_valid_extension`: for each configured extension, build
`("." if "." not in ext else "") + ext.lower()` and test
`filename.lower().endswith(extension)`; the loop returns true on the first
match. -/
def is_valid_extension (extensions : List String) (filename : String) : Bool :=
  extensions.any fun ext =>
    endsWithStr (lowerStr filename) ((if ext.data.contains '.' then "" else ".") ++ lowerStr ext)

/-- A directory of the filesystem: its direct file names and its named
subdirectories. -/
inductive Dir where
  | mk : List String → List (String × Dir) → Dir

/-- Direct file names of a directory. -/
def Dir.files : Dir → List String
  | .mk fs _ => fs

/-- Named subdirectories of a directory. -/
def Dir.subdirs : Dir → List (String × Dir)
  | .mk _ ds => ds

/-- Model of `os.path.join` for the plain entry names `os.walk` yields. -/
def pathJoin (a b : String) : String := a ++ "/" ++ b

mutual

/-- Model of the `os.walk(self.path)` loop of `_find_file_names`: each visited
directory yields `(root, files)`.  When `recursive` is false the code clears
the `directories` list in place at every level; clearing it at the root already
prevents any descent, so only the root level is yielded. -/
def osWalk (recursive : Bool) (path : String) : Dir → List (String × List String)
  | .mk files subdirs =>
    (path, files) :: (if recursive then osWalkSubdirs recursive path subdirs else [])

/-- Continuation of `osWalk` over the subdirectory list, in order. -/
def osWalkSubdirs (recursive : Bool) (path : String) : List (String × Dir) → List (String × List String)
  | [] => []
  | (name, d) :: rest =>
    osWalk recursive (pathJoin path name) d ++ osWalkSubdirs recursive path rest

end

/-- Embedding of `_find_file_names`.  The root is `Option Dir`: `none` models a
configured path that does not exist or is not a directory, on which Python
`os.walk` (with its default `onerror=None`) swallows the `scandir` error and
yields no entries at all. -/
def find_file_names (cfg : Config) (root : Option Dir) : List String :=
  match root with
  | none => []
  | some d =>
    (osWalk cfg.recursive cfg.path d).flatMap fun lvl =>
      lvl.2.filterMap fun f =>
        let filename := pathJoin lvl.1 f
        if is_valid_extension cfg.extensions filename then some filename else none

/-- The write actions of `execute`: for every discovered file name, the file is
rewritten with the transformed text.  Reading, parsing and serialising are
external, so the per-document text transform is a parameter `transformDoc` and
the file contents a map `contents`. -/
def executeWrites (cfg : Config) (root : Option Dir)
    (transformDoc : String → String) (contents : String → String) :
    List (String × String) :=
  (find_file_names cfg root).map fun fn => (fn, transformDoc (contents fn))

/-- Reaching a subdirectory: `DirAt d p sub` holds when following the
directory names `p` from `d` leads to `sub`. -/
inductive DirAt : Dir → List String → Dir → Prop where
  | refl (d : Dir) : DirAt d [] d
  | step {d sub r : Dir} {p : List String} (name : String) :
      (name, sub) ∈ d.subdirs → DirAt sub p r → DirAt d (name :: p) r

/-- The path prefix `os.walk` reports for the directory reached by following
the names `dirs` from the root path. -/
def joinPathList (base : String) (dirs : List String) : String :=
  dirs.foldl pathJoin base

/-- Variant of `_is_valid_tag` written from the words of the specification
claim C2, which asserts that the configured tag names are lower-cased before
the membership comparison as well.  Used to compare the claim against the
code, which lower-cases only the element side. -/
def is_valid_tag_lower_both (cfg : Config) (name : String) : Bool :=
  !((cfg.exclude_tags.map lowerStr).contains (lowerStr name)) &&
    (cfg.include_tags == sentinelIncludeTags ||
      (cfg.include_tags.map lowerStr).contains (lowerStr name))

/-- Variant of `_is_valid_extension` written from the words of the
specification claim C3, which asserts that every configured extension is
normalized to carry a leading dot.  Used to compare the claim against the
code, which prepends a dot only when the extension contains no dot at all. -/
def is_valid_extension_leading_dot (extensions : List String) (filename : String) : Bool :=
  extensions.any fun ext =>
    endsWithStr (lowerStr filename)
      (if ext.data.headD ' ' = '.' then lowerStr ext else "." ++ lowerStr ext)

/-- A sample UUID stream for concrete witnesses: every draw is the same
36-character version-4 shaped string. -/
def sampleUuids : Nat → String := fun _ => "00000000-0000-4000-8000-000000000000"

/-! Helper lemmas about the embedded definitions. -/

theorem getAttr_setAttr_same (a : Attrs) (key val : String) :
    getAttr (setAttr a key val) key = some val := by
  induction a with
  | nil => simp [setAttr, getAttr]
  | cons p rest ih =>
    obtain ⟨k, v⟩ := p
    by_cases h : k = key
    · simp [setAttr, h, getAttr]
    · simp [setAttr, h, getAttr, ih]

theorem is_valid_tag_iff (cfg : Config) (name : String) :
    is_valid_tag cfg name = true ↔
      lowerStr name ∉ cfg.exclude_tags ∧
        (cfg.include_tags = sentinelIncludeTags ∨ lowerStr name ∈ cfg.include_tags) := by
  simp [is_valid_tag, List.contains]

theorem new_id_ne_empty (cfg : Config) (u : String) (h : u.length = 36) :
    new_id cfg u ≠ "" := by
  intro he
  have hd : (new_id cfg u).data = [] := by rw [he]
  simp [new_id, String.data_append] at hd
  have : u.length = 0 := by simp [String.length, hd.2.1]
  omega

theorem truthy_some_of_ne (s : String) (h : s ≠ "") : truthy (some s) = true := by
  simp [truthy, h]

theorem any_congr_of_mem {α : Type} (l : List α) (f g : α → Bool)
    (h : ∀ x ∈ l, f x = g x) : l.any f = l.any g := by
  induction l with
  | nil => rfl
  | cons a t ih =>
    simp only [List.any_cons]
    rw [h a (by simp), ih (fun x hx => h x (by simp [hx]))]

theorem includeIdList_getElem (cfg : Config) (uuids : Nat → String) :
    ∀ (cs : List Node) (k i : Nat) (c : Node), cs[i]? = some c →
      ∃ k', (includeIdList cfg uuids cs k).1[i]? = some (includeIdNode cfg uuids c k').1
  | [], _, i, c => by simp
  | c0 :: cs, k, 0, c => by
    intro h
    simp at h
    subst h
    exact ⟨k, by simp [includeIdList]⟩
  | c0 :: cs, k, i + 1, c => by
    intro h
    simp at h
    obtain ⟨k', hk⟩ :=
      includeIdList_getElem cfg uuids cs (includeIdNode cfg uuids c0 k).2 i c h
    exact ⟨k', by simp [includeIdList, hk]⟩

theorem includeIdNode_get (cfg : Config) (uuids : Nat → String) :
    ∀ (p : List Nat) (t : Node) (k : Nat) (name : String) (attrs : Attrs) (cs : List Node),
      Node.get p t = some (.elem name attrs cs) →
      ∃ n cs2, Node.get p (includeIdNode cfg uuids t k).1 =
        some (.elem name (attrsAfter cfg (uuids n) name attrs) cs2)
  | [], t, k, name, attrs, cs => by
    intro h
    simp [Node.get] at h
    subst h
    by_cases hc : (is_valid_tag cfg name && !(truthy (getAttr attrs "id"))) = true
    · exact ⟨k, (includeIdList cfg uuids cs (k + 1)).1,
        by simp [includeIdNode, hc, Node.get, attrsAfter]⟩
    · exact ⟨k, (includeIdList cfg uuids cs k).1,
        by simp [includeIdNode, hc, Node.get, attrsAfter]⟩
  | i :: p, .text s, k, name, attrs, cs => by
    intro h
    simp [Node.get] at h
  | i :: p, .elem n0 a0 cs0, k, name, attrs, cs => by
    intro h
    simp [Node.get, Option.bind_eq_some] at h
    obtain ⟨c, hc0, hcp⟩ := h
    by_cases hc : (is_valid_tag cfg n0 && !(truthy (getAttr a0 "id"))) = true
    · obtain ⟨k', hk⟩ := includeIdList_getElem cfg uuids cs0 (k + 1) i c hc0
      obtain ⟨n, cs2, hn⟩ := includeIdNode_get cfg uuids p c k' name attrs cs hcp
      refine ⟨n, cs2, ?_⟩
      simp [includeIdNode, hc, Node.get, Option.bind_eq_some]
      exact ⟨_, hk, hn⟩
    · obtain ⟨k', hk⟩ := includeIdList_getElem cfg uuids cs0 k i c hc0
      obtain ⟨n, cs2, hn⟩ := includeIdNode_get cfg uuids p c k' name attrs cs hcp
      refine ⟨n, cs2, ?_⟩
      simp [includeIdNode, hc, Node.get, Option.bind_eq_some]
      exact ⟨_, hk, hn⟩

theorem include_id_get (cfg : Config) (uuids : Nat → String) (doc : List Node)
    (p : List Nat) (name : String) (attrs : Attrs) (cs : List Node)
    (h : docGet doc p = some (.elem name attrs cs)) :
    ∃ n cs2, docGet (include_id cfg uuids doc) p =
      some (.elem name (attrsAfter cfg (uuids n) name attrs) cs2) := by
  match p with
  | [] => simp [docGet] at h
  | i :: p' =>
    simp [docGet, Option.bind_eq_some] at h
    obtain ⟨c, hi, hp⟩ := h
    obtain ⟨k', hk⟩ := includeIdList_getElem cfg uuids doc 0 i c hi
    obtain ⟨n, cs2, hn⟩ := includeIdNode_get cfg uuids p' c k' name attrs cs hp
    refine ⟨n, cs2, ?_⟩
    simp [include_id, docGet, Option.bind_eq_some]
    exact ⟨_, hk, hn⟩

mutual

theorem includeIdNode_idem (cfg : Config) (uuids1 uuids2 : Nat → String)
    (h36 : ∀ n, (uuids1 n).length = 36) :
    ∀ (t : Node) (k k' : Nat),
      includeIdNode cfg uuids2 (includeIdNode cfg uuids1 t k).1 k' =
        ((includeIdNode cfg uuids1 t k).1, k')
  | .text s, k, k' => by simp [includeIdNode]
  | .elem name attrs cs, k, k' => by
    by_cases hc : (is_valid_tag cfg name && !(truthy (getAttr attrs "id"))) = true
    · have hid : truthy (getAttr (setAttr attrs "id" (new_id cfg (uuids1 k))) "id") = true := by
        rw [getAttr_setAttr_same]
        exact truthy_some_of_ne _ (new_id_ne_empty cfg _ (h36 k))
      have hrec := includeIdList_idem cfg uuids1 uuids2 h36 cs (k + 1) k'
      simp [includeIdNode, hc, hid, hrec]
    · have hrec := includeIdList_idem cfg uuids1 uuids2 h36 cs k k'
      simp [includeIdNode, hc, hrec]

theorem includeIdList_idem (cfg : Config) (uuids1 uuids2 : Nat → String)
    (h36 : ∀ n, (uuids1 n).length = 36) :
    ∀ (cs : List Node) (k k' : Nat),
      includeIdList cfg uuids2 (includeIdList cfg uuids1 cs k).1 k' =
        ((includeIdList cfg uuids1 cs k).1, k')
  | [], k, k' => by simp [includeIdList]
  | c :: cs, k, k' => by
    have h1 := includeIdNode_idem cfg uuids1 uuids2 h36 c k k'
    have h2 :=
      includeIdList_idem cfg uuids1 uuids2 h36 cs (includeIdNode cfg uuids1 c k).2 k'
    simp [includeIdList, h1, h2]

end

theorem osWalkSubdirs_mem (recursive : Bool) (path : String) :
    ∀ (subdirs : List (String × Dir)) (name : String) (d : Dir),
      (name, d) ∈ subdirs →
      ∀ x, x ∈ osWalk recursive (pathJoin path name) d →
        x ∈ osWalkSubdirs recursive path subdirs
  | [], name, d => by simp
  | (n0, d0) :: rest, name, d => by
    intro hmem x hx
    simp only [osWalkSubdirs, List.mem_append]
    rcases List.mem_cons.mp hmem with he | ht
    · left
      cases he
      exact hx
    · right
      exact osWalkSubdirs_mem recursive path rest name d ht x hx

theorem dirAt_mem_osWalk {d : Dir} {dirs : List String} {sub : Dir}
    (h : DirAt d dirs sub) :
    ∀ p, (joinPathList p dirs, sub.files) ∈ osWalk true p d := by
  induction h with
  | refl d =>
    intro p
    obtain ⟨fs, ds⟩ := d
    simp [osWalk, joinPathList, Dir.files]
  | @step d0 sub0 r0 dirs0 name hmem hrest ih =>
    intro p
    obtain ⟨fs, ds⟩ := d0
    have hx := ih (pathJoin p name)
    rw [joinPathList] at hx ⊢
    simp only [List.foldl_cons]
    simp only [osWalk]
    refine List.mem_cons_of_mem _ ?_
    exact osWalkSubdirs_mem true p ds name _ (by simpa [Dir.subdirs] using hmem) _ hx

/-! Claim theorems and their witnesses. -/

/-- C1: For every element node in a parsed document, `_include_id` assigns a
generated `id` attribute to it if and only if it has no non-empty `id`
attribute already, its lower-cased tag name is not in `exclude_tags`, and
either `include_tags` is the "all" sentinel `["*"]` or its lower-cased tag
name is in `include_tags`; when a tag name is in both lists, exclusion is
checked first and wins, so the attributes are left unchanged. -/
theorem C1_include_iff (cfg : Config) (uuids : Nat → String) (doc : List Node)
    (p : List Nat) (name : String) (attrs : Attrs) (cs : List Node)
    (h : docGet doc p = some (.elem name attrs cs)) :
    ∃ attrs2 cs2,
      docGet (include_id cfg uuids doc) p = some (.elem name attrs2 cs2) ∧
      ((truthy (getAttr attrs "id") = false ∧ lowerStr name ∉ cfg.exclude_tags ∧
          (cfg.include_tags = sentinelIncludeTags ∨ lowerStr name ∈ cfg.include_tags)) →
        ∃ n, attrs2 = setAttr attrs "id" (new_id cfg (uuids n))) ∧
      ((truthy (getAttr attrs "id") = true ∨ lowerStr name ∈ cfg.exclude_tags ∨
          (cfg.include_tags ≠ sentinelIncludeTags ∧ lowerStr name ∉ cfg.include_tags)) →
        attrs2 = attrs) := by
  obtain ⟨n, cs2, hn⟩ := include_id_get cfg uuids doc p name attrs cs h
  refine ⟨attrsAfter cfg (uuids n) name attrs, cs2, hn, ?_, ?_⟩
  · rintro ⟨h1, h2, h3⟩
    exact ⟨n, by simp [attrsAfter, h1, (is_valid_tag_iff cfg name).2 ⟨h2, h3⟩]⟩
  · intro hbad
    have hfalse : (is_valid_tag cfg name && !(truthy (getAttr attrs "id"))) = false := by
      rcases hbad with h1 | h2 | ⟨h3, h4⟩
      · simp [h1]
      · have hv : is_valid_tag cfg name = false := by
          cases hb : is_valid_tag cfg name
          · rfl
          · exact absurd ((is_valid_tag_iff cfg name).1 hb).1 (by simpa using h2)
        simp [hv]
      · have hv : is_valid_tag cfg name = false := by
          cases hb : is_valid_tag cfg name
          · rfl
          · rcases ((is_valid_tag_iff cfg name).1 hb).2 with hs | hm
            · exact absurd hs h3
            · exact absurd hm h4
        simp [hv]
    simp [attrsAfter, hfalse]

/-- Witness for C1 at a concrete input: a lone `div` with no attributes under
the default configuration receives a generated identifier. -/
theorem C1_include_iff_witness :
    ∃ attrs2 cs2,
      docGet (include_id defaultConfig sampleUuids [.elem "div" [] []]) [0] =
        some (.elem "div" attrs2 cs2) ∧
      ((truthy (getAttr [] "id") = false ∧ lowerStr "div" ∉ defaultConfig.exclude_tags ∧
          (defaultConfig.include_tags = sentinelIncludeTags ∨
            lowerStr "div" ∈ defaultConfig.include_tags)) →
        ∃ n, attrs2 = setAttr [] "id" (new_id defaultConfig (sampleUuids n))) ∧
      ((truthy (getAttr [] "id") = true ∨ lowerStr "div" ∈ defaultConfig.exclude_tags ∨
          (defaultConfig.include_tags ≠ sentinelIncludeTags ∧
            lowerStr "div" ∉ defaultConfig.include_tags)) →
        attrs2 = []) :=
  C1_include_iff defaultConfig sampleUuids [.elem "div" [] []] [0] "div" [] [] rfl

/-- C2 counterexample: the claim says the comparison behaves as if the
configured tag names were lower-cased too, so a configured exclude entry
`"DIV"` would exclude a `div` element.  The code lower-cases only the element
side: with `exclude_tags = ["DIV"]` the element `div` is still eligible,
unlike under the both-sides lower-casing the claim describes. -/
theorem C2_claim_counterexample :
    is_valid_tag { defaultConfig with exclude_tags := ["DIV"] } "div" = true ∧
      is_valid_tag_lower_both { defaultConfig with exclude_tags := ["DIV"] } "div" = false := by
  constructor <;> decide

/-- C2 amended: the comparison lower-cases only the element side.  Eligibility
depends on the element tag name only through its lower-casing (so discovered
tag names differing only in case are treated alike), and the lower-cased tag
name is compared against the configured lists verbatim, without lower-casing
them. -/
theorem C2_element_side_lowercase (cfg : Config) (n1 n2 : String)
    (h : lowerStr n1 = lowerStr n2) :
    is_valid_tag cfg n1 = is_valid_tag cfg n2 ∧
      (is_valid_tag cfg n1 = true ↔
        lowerStr n1 ∉ cfg.exclude_tags ∧
          (cfg.include_tags = sentinelIncludeTags ∨ lowerStr n1 ∈ cfg.include_tags)) :=
  ⟨by simp [is_valid_tag, h], is_valid_tag_iff cfg n1⟩

/-- Witness for the amended C2 at a concrete input: `DIV` and `div` are
treated alike under the default configuration. -/
theorem C2_element_side_lowercase_witness :
    is_valid_tag defaultConfig "DIV" = is_valid_tag defaultConfig "div" :=
  (C2_element_side_lowercase defaultConfig "DIV" "div" (by decide)).1

/-- C3 counterexample: the claim says every configured extension is compared
after being normalized to carry a leading dot, including extensions that
already contain a dot.  For the extension `"a.b"`, which contains a dot that
is not leading, the code compares the suffix `"a.b"` verbatim, so the file
`"xa.b"` qualifies, while the leading-dot comparison `".a.b"` of the claim
rejects it. -/
theorem C3_claim_counterexample :
    is_valid_extension ["a.b"] "xa.b" = true ∧
      is_valid_extension_leading_dot ["a.b"] "xa.b" = false := by
  constructor <;> decide

/-- C3 amended: a file qualifies if and only if its lower-cased path ends
with, for at least one configured extension, the lower-cased extension with a
dot prepended when the extension contains no dot at all, and the lower-cased
extension verbatim when it already contains a dot anywhere.  When no
configured extension contains a dot this agrees with the leading-dot
normalization the claim describes. -/
theorem C3_suffix_characterization (extensions : List String) (filename : String) :
    (is_valid_extension extensions filename = true ↔
      ∃ ext ∈ extensions,
        endsWithStr (lowerStr filename)
          ((if ext.data.contains '.' then "" else ".") ++ lowerStr ext) = true) ∧
    ((∀ ext ∈ extensions, ext.data.contains '.' = false) →
      is_valid_extension extensions filename =
        is_valid_extension_leading_dot extensions filename) := by
  constructor
  · simp [is_valid_extension, List.any_eq_true]
  · intro hnd
    simp only [is_valid_extension, is_valid_extension_leading_dot]
    apply any_congr_of_mem
    intro ext hm
    have h1 : ext.data.contains '.' = false := hnd ext hm
    have h1' : '.' ∉ ext.data := by
      intro hx
      have hcon : ext.data.contains '.' = true := by simp [List.contains, hx]
      rw [h1] at hcon
      cases hcon
    have h2' : ¬(ext.data.head?.getD ' ' = '.') := by
      intro hh
      cases hl : ext.data with
      | nil => rw [hl] at hh; simp at hh
      | cons a rest =>
        rw [hl] at hh
        simp at hh
        exact h1' (by rw [hl, hh]; exact List.mem_cons_self _ _)
    simp [h1', h2']

/-- Witness for the amended C3 at a concrete input: for the dot-free
configured extension `"html"` the code agrees with the leading-dot
normalization. -/
theorem C3_suffix_characterization_witness :
    is_valid_extension ["html"] "A.HTML" =
      is_valid_extension_leading_dot ["html"] "A.HTML" :=
  (C3_suffix_characterization ["html"] "A.HTML").2 (by decide)

/-- C4: the transform is idempotent.  Applying `_include_id` to its own output
changes nothing: every element eligible in the first run received a non-empty
identifier there (the UUID part of a generated identifier is a 36-character
string), so the second run assigns no new identifiers, whatever UUIDs it would
draw. -/
theorem C4_idempotent (cfg : Config) (uuids1 uuids2 : Nat → String) (doc : List Node)
    (h36 : ∀ n, (uuids1 n).length = 36) :
    include_id cfg uuids2 (include_id cfg uuids1 doc) = include_id cfg uuids1 doc := by
  simp [include_id, includeIdList_idem cfg uuids1 uuids2 h36 doc 0 0]

/-- Witness for C4 at a concrete input: a `body` with a nested `div` under the
default configuration. -/
theorem C4_idempotent_witness :
    include_id defaultConfig sampleUuids
        (include_id defaultConfig sampleUuids [.elem "body" [] [.elem "div" [] []]]) =
      include_id defaultConfig sampleUuids [.elem "body" [] [.elem "div" [] []]] :=
  C4_idempotent defaultConfig sampleUuids sampleUuids
    [.elem "body" [] [.elem "div" [] []]] (fun _ => rfl)

/-- C5: an element that carries a non-empty `id` attribute before the
transform keeps its attributes, and in particular its `id` value, unchanged,
for every configuration. -/
theorem C5_existing_id_unchanged (cfg : Config) (uuids : Nat → String)
    (doc : List Node) (p : List Nat) (name : String) (attrs : Attrs) (cs : List Node)
    (h : docGet doc p = some (.elem name attrs cs))
    (hid : truthy (getAttr attrs "id") = true) :
    ∃ attrs2 cs2,
      docGet (include_id cfg uuids doc) p = some (.elem name attrs2 cs2) ∧
      attrs2 = attrs ∧ getAttr attrs2 "id" = getAttr attrs "id" := by
  obtain ⟨n, cs2, hn⟩ := include_id_get cfg uuids doc p name attrs cs h
  have ha : attrsAfter cfg (uuids n) name attrs = attrs := by
    simp [attrsAfter, hid]
  exact ⟨attrsAfter cfg (uuids n) name attrs, cs2, hn, ha, by rw [ha]⟩

/-- Witness for C5 at a concrete input: a `p` element with `id="k"` keeps it. -/
theorem C5_existing_id_unchanged_witness :
    ∃ attrs2 cs2,
      docGet (include_id defaultConfig sampleUuids [.elem "p" [("id", "k")] []]) [0] =
        some (.elem "p" attrs2 cs2) ∧
      attrs2 = [("id", "k")] ∧ getAttr attrs2 "id" = getAttr [("id", "k")] "id" :=
  C5_existing_id_unchanged defaultConfig sampleUuids [.elem "p" [("id", "k")] []]
    [0] "p" [("id", "k")] [] rfl (by decide)

/-- C6: with `recursive = false` discovery considers only the direct files of
the root directory, so it never returns a path from a subdirectory; with
`recursive = true` every matching file of every subdirectory, at any depth, is
returned. -/
theorem C6_recursive_discovery (cfg : Config) (d : Dir) :
    (cfg.recursive = false →
      find_file_names cfg (some d) =
        d.files.filterMap fun f =>
          if is_valid_extension cfg.extensions (pathJoin cfg.path f) then
            some (pathJoin cfg.path f) else none) ∧
    (cfg.recursive = true →
      ∀ (dirs : List String) (sub : Dir) (f : String), DirAt d dirs sub →
        f ∈ sub.files →
        is_valid_extension cfg.extensions (pathJoin (joinPathList cfg.path dirs) f) = true →
        pathJoin (joinPathList cfg.path dirs) f ∈ find_file_names cfg (some d)) := by
  constructor
  · intro hrec
    obtain ⟨fs, ds⟩ := d
    simp [find_file_names, hrec, osWalk, Dir.files]
  · intro hrec dirs sub f hat hf hext
    have hmem := dirAt_mem_osWalk hat cfg.path
    simp only [find_file_names, hrec, List.mem_flatMap]
    refine ⟨(joinPathList cfg.path dirs, sub.files), hmem, ?_⟩
    simp only [List.mem_filterMap]
    exact ⟨f, hf, by simp [hext]⟩

/-- Witness for C6 at a concrete input: a root with one direct file and one
subdirectory file; the non-recursive run returns only the direct file, the
recursive run also finds the subdirectory file. -/
theorem C6_recursive_discovery_witness :
    find_file_names defaultConfig
        (some (.mk ["a.html"] [("sub", .mk ["b.html"] [])])) = ["./a.html"] ∧
      "./sub/b.html" ∈ find_file_names { defaultConfig with recursive := true }
        (some (.mk ["a.html"] [("sub", .mk ["b.html"] [])])) := by
  constructor
  · have h := (C6_recursive_discovery defaultConfig
      (.mk ["a.html"] [("sub", .mk ["b.html"] [])])).1 rfl
    rw [h]
    decide
  · have h := (C6_recursive_discovery { defaultConfig with recursive := true }
      (.mk ["a.html"] [("sub", .mk ["b.html"] [])])).2 rfl ["sub"] (.mk ["b.html"] [])
      "b.html" (DirAt.step "sub" (by simp [Dir.subdirs]) (DirAt.refl _))
      (by simp [Dir.files]) (by decide)
    simpa [joinPathList, pathJoin] using h

/-- C7: every identifier the transform assigns is exactly the configured
prefix, followed by a 36-character UUID string drawn from the generator,
followed by the configured suffix; the `id` value of every other element is
left as it was.  The version-4 shape of the 36-character string is a property
of the external `uuid.uuid4` generator, modelled by the stream hypothesis. -/
theorem C7_id_shape (cfg : Config) (uuids : Nat → String) (doc : List Node)
    (p : List Nat) (name : String) (attrs : Attrs) (cs : List Node)
    (h36 : ∀ n, (uuids n).length = 36)
    (h : docGet doc p = some (.elem name attrs cs)) :
    ∃ attrs2 cs2,
      docGet (include_id cfg uuids doc) p = some (.elem name attrs2 cs2) ∧
      (getAttr attrs2 "id" = getAttr attrs "id" ∨
        ∃ u, u.length = 36 ∧ getAttr attrs2 "id" = some (cfg.pre ++ u ++ cfg.suffix)) := by
  obtain ⟨n, cs2, hn⟩ := include_id_get cfg uuids doc p name attrs cs h
  refine ⟨attrsAfter cfg (uuids n) name attrs, cs2, hn, ?_⟩
  by_cases hc : (is_valid_tag cfg name && !(truthy (getAttr attrs "id"))) = true
  · right
    exact ⟨uuids n, h36 n,
      by simp [attrsAfter, hc, new_id, getAttr_setAttr_same]⟩
  · left
    simp [attrsAfter, hc]

/-- Witness for C7 at a concrete input: a `div` under prefix `x-` and suffix
`-y`. -/
theorem C7_id_shape_witness :
    ∃ attrs2 cs2,
      docGet (include_id { defaultConfig with pre := "x-", suffix := "-y" }
          sampleUuids [.elem "div" [] []]) [0] = some (.elem "div" attrs2 cs2) ∧
      (getAttr attrs2 "id" = getAttr [] "id" ∨
        ∃ u, u.length = 36 ∧ getAttr attrs2 "id" = some ("x-" ++ u ++ "-y")) :=
  C7_id_shape { defaultConfig with pre := "x-", suffix := "-y" } sampleUuids
    [.elem "div" [] []] [0] "div" [] [] (fun _ => rfl) rfl

/-- C8: when the configured path does not exist or is not a directory, the
`os.walk` primitive (with its default `onerror=None`) swallows the error and
yields no entries, so discovery finds zero files and `execute` completes as a
no-op that modifies no file; this is the second branch of the claim. -/
theorem C8_missing_root_noop (cfg : Config) (transformDoc contents : String → String) :
    find_file_names cfg none = [] ∧
      executeWrites cfg none transformDoc contents = [] :=
  ⟨rfl, rfl⟩

/-- C9: the "all tags" sentinel takes effect only when `include_tags` is
exactly the one-element list `["*"]`; for any other list the comparison
`include_tags == ['*']` fails, `*` is just a possible literal tag name, and an
element is eligible only if its lower-cased tag name is literally a member of
the list (and it passes exclusion). -/
theorem C9_sentinel_exact (cfg : Config) (name : String)
    (h : cfg.include_tags ≠ sentinelIncludeTags) :
    is_valid_tag cfg name = true ↔
      lowerStr name ∉ cfg.exclude_tags ∧ lowerStr name ∈ cfg.include_tags := by
  rw [is_valid_tag_iff]
  simp [h]

/-- Witness for C9 at a concrete input: with `include_tags = ["*", "div"]` the
sentinel does not apply, so `p` is not eligible while `div` still is. -/
theorem C9_sentinel_exact_witness :
    is_valid_tag { defaultConfig with include_tags := ["*", "div"] } "p" = false ∧
      is_valid_tag { defaultConfig with include_tags := ["*", "div"] } "div" = true := by
  constructor
  · have h := C9_sentinel_exact { defaultConfig with include_tags := ["*", "div"] } "p"
      (by decide)
    cases hb : is_valid_tag { defaultConfig with include_tags := ["*", "div"] } "p"
    · rfl
    · exact absurd (h.1 hb) (by decide)
  · exact (C9_sentinel_exact { defaultConfig with include_tags := ["*", "div"] } "div"
      (by decide)).2 (by decide)

/-- C10: exclusion is not hereditary.  Eligibility is decided per element on
its own tag name and attributes only: for every document and every path to an
eligible element with no truthy `id`, the transformed document carries a
generated identifier on that element, with no condition whatsoever on the
ancestors of the element (they may be excluded tags such as `head`). -/
theorem C10_not_hereditary (cfg : Config) (uuids : Nat → String) (doc : List Node)
    (p : List Nat) (name : String) (attrs : Attrs) (cs : List Node)
    (h : docGet doc p = some (.elem name attrs cs))
    (hvalid : is_valid_tag cfg name = true)
    (hno : truthy (getAttr attrs "id") = false) :
    ∃ n attrs2 cs2,
      docGet (include_id cfg uuids doc) p = some (.elem name attrs2 cs2) ∧
      getAttr attrs2 "id" = some (new_id cfg (uuids n)) := by
  obtain ⟨n, cs2, hn⟩ := include_id_get cfg uuids doc p name attrs cs h
  refine ⟨n, attrsAfter cfg (uuids n) name attrs, cs2, hn, ?_⟩
  simp [attrsAfter, hvalid, hno, getAttr_setAttr_same]

/-- Witness for C10 at a concrete input: a `div` nested inside the excluded
`head` still receives a generated identifier under the default
configuration. -/
theorem C10_not_hereditary_witness :
    ∃ n attrs2 cs2,
      docGet (include_id defaultConfig sampleUuids
          [.elem "head" [] [.elem "div" [] []]]) [0, 0] =
        some (.elem "div" attrs2 cs2) ∧
      getAttr attrs2 "id" = some (new_id defaultConfig (sampleUuids n)) :=
  C10_not_hereditary defaultConfig sampleUuids [.elem "head" [] [.elem "div" [] []]]
    [0, 0] "div" [] [] rfl (by decide) rfl

end AddRandomId
